import Mathlib

/-!
Shallow embedding of the market-data aggregation core of the repository
(`app/backend`): the data-source failover protocol
(`services/data_source_manager.py`), provider bar normalization
(`services/akshare_service.py`), the bounded in-process fallback cache
(`core/cache.py`), the kline storage layer (`services/kline_storage.py`
and `routers/data_sources.py`), and the indicator engine
(`services/fin_agent_service.py`).

Python floats are modelled as exact rationals (`ℚ`); a provider call that
raises is modelled as `Option.none` at the call boundary; Python dicts used
as insertion-ordered maps are modelled as association lists with
replace-in-place update.
-/

namespace AITradingMate

/-! ## Data source manager (`services/data_source_manager.py`) -/

/-- The `DataSource` enum, members listed in priority order. -/
inductive DataSource where
  | eastmoney
  | sina
  | tushare
deriving DecidableEq, Repr

/-- `.value` of a `DataSource` member (it is a `str` enum). -/
def DataSource.value : DataSource → String
  | .eastmoney => "eastmoney"
  | .sina => "sina"
  | .tushare => "tushare"

/-- `DataSourceManager.SOURCE_PRIORITY`: 东方财富 > 新浪财经 > Tushare. -/
def SOURCE_PRIORITY : List DataSource :=
  [DataSource.eastmoney, DataSource.sina, DataSource.tushare]

/-- `DataSourceManager._get_fallback_sources`: the priority list with the
current source removed. -/
def get_fallback_sources (current : DataSource) : List DataSource :=
  SOURCE_PRIORITY.filter (fun s => s ≠ current)

/-- Canonical normalized bar, the output shape of `normalize_kline_data`.
The Python dict always carries all eleven keys, so the structure has no
optional fields; `open` is a Lean keyword, hence the field name `open_`. -/
structure Bar where
  trade_date : String
  date : String
  open_ : ℚ
  high : ℚ
  low : ℚ
  close : ℚ
  vol : ℚ
  volume : ℚ
  amount : ℚ
  pct_chg : ℚ
  source : String
deriving DecidableEq, Repr

/-- The dict returned by `DataSourceManager.get_kline`: `error` is present
(`some`) only on total failure. -/
structure KlineResult where
  ts_code : String
  source : String
  period : String
  data : List Bar
  error : Option String
deriving DecidableEq, Repr

/-- The intraday periods tested by `get_kline`:
`period in ("1", "5", "15", "30", "60")`. -/
def MINUTE_PERIODS : List String := ["1", "5", "15", "30", "60"]

/-- Source resolution at the top of `DataSourceManager.get_kline`:
`source = source or self._default_source`, then minute periods force
eastmoney. -/
def resolve_kline_source (requested : Option DataSource) (default : DataSource)
    (period : String) : DataSource :=
  let source := requested.getD default
  if period ∈ MINUTE_PERIODS then DataSource.eastmoney else source

/-- One provider attempt (`_fetch_kline_from_source` under the `try`):
`none` models a raised exception, `some bars` a normal return. -/
abbrev Fetch := DataSource → Option (List Bar)

/-- The error message of the all-sources-failed dict. -/
def ALL_SOURCES_FAILED_MSG : String := "所有数据源都无法获取数据"

/-- The fallback loop of `get_kline`: try each fallback in order, returning
at the first non-empty result (`if klines:`); a raised call (`none`) or an
empty list falls through to the next source; after exhaustion return the
explicit empty-result dict carrying the error message. -/
def kline_fallback_loop (fetch : Fetch) (ts_code period : String)
    (primary : DataSource) : List DataSource → KlineResult
  | [] =>
    { ts_code := ts_code, source := primary.value, period := period,
      data := [], error := some ALL_SOURCES_FAILED_MSG }
  | fb :: rest =>
    match fetch fb with
    | some (k :: ks) =>
      { ts_code := ts_code, source := fb.value, period := period,
        data := k :: ks, error := none }
    | _ => kline_fallback_loop fetch ts_code period primary rest

/-- `DataSourceManager.get_kline`: resolve the source, try it, then run the
fallback loop over `_get_fallback_sources`. The function is total: a raised
provider call is absorbed (`except Exception`), never propagated. -/
def get_kline (fetch : Fetch) (default : DataSource) (ts_code period : String)
    (requested : Option DataSource) : KlineResult :=
  let source := resolve_kline_source requested default period
  let fallbacks := get_fallback_sources source
  match fetch source with
  | some (k :: ks) =>
    { ts_code := ts_code, source := source.value, period := period,
      data := k :: ks, error := none }
  | _ => kline_fallback_loop fetch ts_code period source fallbacks

/-- Normalizing a fetch so that an empty-but-valid result is reported as a
raised call; used to state that the two are treated identically. -/
def fetch_empty_as_raise (fetch : Fetch) : Fetch := fun s =>
  match fetch s with
  | some [] => none
  | r => r

/-! ### Helper lemmas for the failover protocol -/

/-- A fallback source that raised or returned empty is skipped. -/
lemma kline_fallback_loop_skip (fetch : Fetch) (ts_code period : String)
    (primary : DataSource) (fb : DataSource) (rest : List DataSource)
    (h : fetch fb = none ∨ fetch fb = some []) :
    kline_fallback_loop fetch ts_code period primary (fb :: rest) =
      kline_fallback_loop fetch ts_code period primary rest := by
  rcases h with h | h <;> simp [kline_fallback_loop, h]

/-- If every source in the list raised or returned empty, the loop ends in
the explicit error dict. -/
lemma kline_fallback_loop_all_fail (fetch : Fetch) (ts_code period : String)
    (primary : DataSource) (l : List DataSource)
    (h : ∀ s ∈ l, fetch s = none ∨ fetch s = some []) :
    kline_fallback_loop fetch ts_code period primary l =
      { ts_code := ts_code, source := primary.value, period := period,
        data := [], error := some ALL_SOURCES_FAILED_MSG } := by
  induction l with
  | nil => rfl
  | cons fb rest ih =>
    rw [kline_fallback_loop_skip fetch ts_code period primary fb rest
      (h fb (List.mem_cons_self fb rest))]
    exact ih (fun s hs => h s (List.mem_cons_of_mem fb hs))

/-- A prefix of failing sources is skipped wholesale. -/
lemma kline_fallback_loop_append_fail (fetch : Fetch) (ts_code period : String)
    (primary : DataSource) (l1 l2 : List DataSource)
    (h : ∀ s ∈ l1, fetch s = none ∨ fetch s = some []) :
    kline_fallback_loop fetch ts_code period primary (l1 ++ l2) =
      kline_fallback_loop fetch ts_code period primary l2 := by
  induction l1 with
  | nil => rfl
  | cons fb rest ih =>
    rw [List.cons_append,
      kline_fallback_loop_skip fetch ts_code period primary fb (rest ++ l2)
        (h fb (List.mem_cons_self fb rest))]
    exact ih (fun s hs => h s (List.mem_cons_of_mem fb hs))

/-- The loop cannot distinguish an empty result from a raised call. -/
lemma kline_fallback_loop_empty_as_raise (fetch : Fetch)
    (ts_code period : String) (primary : DataSource) (l : List DataSource) :
    kline_fallback_loop (fetch_empty_as_raise fetch) ts_code period primary l =
      kline_fallback_loop fetch ts_code period primary l := by
  induction l with
  | nil => rfl
  | cons fb rest ih =>
    cases hfb : fetch fb with
    | none => simpa [kline_fallback_loop, fetch_empty_as_raise, hfb] using ih
    | some ks =>
      cases ks with
      | nil => simpa [kline_fallback_loop, fetch_empty_as_raise, hfb] using ih
      | cons k ks => simp [kline_fallback_loop, fetch_empty_as_raise, hfb]

/-! ### Claims C1, C2, C3 -/

/-- C1: for every kline request with period in {"1","5","15","30","60"},
`DataSourceManager.get_kline` resolves the primary provider to eastmoney —
the only minute-capable provider — overriding both the explicitly requested
source and the configured default source; consequently the whole request
behaves as if eastmoney had been explicitly requested. -/
theorem kline_minute_period_forces_eastmoney
    (requested : Option DataSource) (default : DataSource) (period : String)
    (h : period ∈ MINUTE_PERIODS) :
    resolve_kline_source requested default period = DataSource.eastmoney ∧
    ∀ (fetch : Fetch) (ts_code : String),
      get_kline fetch default ts_code period requested =
        get_kline fetch DataSource.eastmoney ts_code period
          (some DataSource.eastmoney) := by
  constructor
  · simp [resolve_kline_source, h]
  · intro fetch ts_code
    simp [get_kline, resolve_kline_source, h]

/-- Witness for C1: period "5" with tushare requested and sina as default
still resolves to eastmoney. -/
theorem kline_minute_period_forces_eastmoney_witness :
    resolve_kline_source (some DataSource.tushare) DataSource.sina "5" =
      DataSource.eastmoney :=
  (kline_minute_period_forces_eastmoney (some DataSource.tushare)
    DataSource.sina "5" (by decide)).1

/-- C2: if the resolved primary provider and every fallback provider each
raises or returns an empty bar list, `get_kline` returns a well-formed dict
carrying the requested `ts_code` and `period`, an empty `data` list and a
non-empty error message; as a total Lean function of the absorbed provider
outcomes it propagates no exception to the caller. -/
theorem kline_all_sources_fail_returns_error_dict
    (fetch : Fetch) (default : DataSource) (ts_code period : String)
    (requested : Option DataSource)
    (h : ∀ s : DataSource, fetch s = none ∨ fetch s = some []) :
    ∃ msg : String,
      get_kline fetch default ts_code period requested =
        { ts_code := ts_code,
          source := (resolve_kline_source requested default period).value,
          period := period, data := [], error := some msg } ∧
      msg ≠ "" := by
  refine ⟨ALL_SOURCES_FAILED_MSG, ?_, by decide⟩
  have hloop := kline_fallback_loop_all_fail fetch ts_code period
    (resolve_kline_source requested default period)
    (get_fallback_sources (resolve_kline_source requested default period))
    (fun s _ => h s)
  rcases h (resolve_kline_source requested default period) with hp | hp <;>
    simp [get_kline, hp, hloop]

/-- Witness for C2: with every provider raising, the concrete request
yields the error dict. -/
theorem kline_all_sources_fail_returns_error_dict_witness :
    ∃ msg : String,
      get_kline (fun _ => none) DataSource.eastmoney "000001.SZ" "daily"
          none =
        { ts_code := "000001.SZ", source := "eastmoney", period := "daily",
          data := [], error := some msg } ∧
      msg ≠ "" :=
  kline_all_sources_fail_returns_error_dict (fun _ => none)
    DataSource.eastmoney "000001.SZ" "daily" none (fun _ => Or.inl rfl)

/-- C3: when the resolved primary raises or returns empty, `get_kline`
walks the remaining providers in the fixed priority order
eastmoney, sina, tushare (the primary excluded), stops at the first
non-empty result, and reports that provider in the returned `source`
field; moreover an empty-but-valid provider result is treated identically
to a raised call. -/
theorem kline_fallback_first_nonempty_wins
    (fetch : Fetch) (default : DataSource) (ts_code period : String)
    (requested : Option DataSource) (fb : DataSource) (ks : List Bar)
    (l1 l2 : List DataSource)
    (hprimary : fetch (resolve_kline_source requested default period) = none ∨
      fetch (resolve_kline_source requested default period) = some [])
    (hsplit : get_fallback_sources
      (resolve_kline_source requested default period) = l1 ++ fb :: l2)
    (hl1 : ∀ s ∈ l1, fetch s = none ∨ fetch s = some [])
    (hfb : fetch fb = some ks) (hks : ks ≠ []) :
    get_kline fetch default ts_code period requested =
      { ts_code := ts_code, source := fb.value, period := period,
        data := ks, error := none } ∧
    ∀ (f : Fetch) (d : DataSource) (t p : String) (r : Option DataSource),
      get_kline (fetch_empty_as_raise f) d t p r = get_kline f d t p r := by
  constructor
  · have hloop :
        kline_fallback_loop fetch ts_code period
          (resolve_kline_source requested default period) (l1 ++ fb :: l2) =
        { ts_code := ts_code, source := fb.value, period := period,
          data := ks, error := none } := by
      rw [kline_fallback_loop_append_fail fetch ts_code period _ l1 _ hl1]
      cases ks with
      | nil => exact absurd rfl hks
      | cons k ks => simp [kline_fallback_loop, hfb]
    rcases hprimary with hp | hp <;>
      simp [get_kline, hp, hsplit ▸ hloop]
  · intro f d t p r
    cases hfs : f (resolve_kline_source r d p) with
    | none =>
      simp [get_kline, fetch_empty_as_raise, hfs,
        kline_fallback_loop_empty_as_raise]
    | some ks =>
      cases ks with
      | nil =>
        simp [get_kline, fetch_empty_as_raise, hfs,
          kline_fallback_loop_empty_as_raise]
      | cons k ks =>
        simp [get_kline, fetch_empty_as_raise, hfs]

/-- A concrete normalized bar used by witnesses. -/
def sampleBar : Bar :=
  { trade_date := "20240102", date := "20240102", open_ := 10, high := 11,
    low := 9, close := 105/10, vol := 1000, volume := 1000, amount := 10500,
    pct_chg := 5, source := "sina" }

/-- Witness for C3: eastmoney (primary, empty) is skipped and sina's
non-empty result is returned with `source = "sina"`. -/
theorem kline_fallback_first_nonempty_wins_witness :
    get_kline
      (fun s => match s with
        | DataSource.eastmoney => some []
        | DataSource.sina => some [sampleBar]
        | DataSource.tushare => none)
      DataSource.eastmoney "000001.SZ" "daily" none =
      { ts_code := "000001.SZ", source := "sina", period := "daily",
        data := [sampleBar], error := none } :=
  (kline_fallback_first_nonempty_wins
    (fun s => match s with
      | DataSource.eastmoney => some []
      | DataSource.sina => some [sampleBar]
      | DataSource.tushare => none)
    DataSource.eastmoney "000001.SZ" "daily" none DataSource.sina [sampleBar]
    [] [DataSource.tushare]
    (Or.inr rfl) (by decide)
    (fun s hs => absurd hs (List.not_mem_nil s))
    rfl (by simp)).1

/-! ## Provider bar normalization (`services/akshare_service.py`) -/

/-- An upstream kline dict before normalization. Optional fields model keys
that may be absent (`kline.get(...)` returning `None`); numeric wire values
are already `float(...)`-parsed at the call sites embedded here (a parse
failure raises and the whole provider call resolves to an empty list). -/
structure RawKline where
  trade_date : Option String := none
  date : Option String := none
  open_ : Option ℚ := none
  high : Option ℚ := none
  low : Option ℚ := none
  close : Option ℚ := none
  vol : Option ℚ := none
  volume : Option ℚ := none
  amount : Option ℚ := none
  pct_chg : Option ℚ := none
deriving DecidableEq, Repr

/-- Python `a or b` on an optional string: `None` and `""` are falsy. -/
def orString (a : Option String) (b : String) : String :=
  match a with
  | some s => if s = "" then b else s
  | none => b

/-- Python `a or b` on an optional number: `None` and `0` are falsy. -/
def orNum (a : Option ℚ) (b : ℚ) : ℚ :=
  match a with
  | some x => if x = 0 then b else x
  | none => b

/-- `str(date_value).replace("-", "")`: every dash is removed (the source
applies it under an `if "-" in str(date_value)` guard, which is
equivalent); other characters are kept as they are. -/
def stripDashes (s : String) : String := ⟨s.data.filter (fun c => c ≠ '-')⟩

/-- `s` consists of digit characters only. -/
def all_digits (s : String) : Bool := s.data.all (fun c => c.isDigit)

/-- `normalize_kline_data` (akshare_service.py; the copy in
tushare_service.py is identical): pick the date from `trade_date` falling
back to `date`, strip dashes, totalize every numeric field with default 0
(`float(kline.get(f, 0) or 0)`), and duplicate `trade_date`/`date` and
`vol`/`volume`. -/
def normalize_kline_data (k : RawKline) (source : String) : Bar :=
  let date_value := stripDashes (orString k.trade_date (orString k.date ""))
  let vol_value := orNum k.vol (orNum k.volume 0)
  { trade_date := date_value, date := date_value,
    open_ := k.open_.getD 0, high := k.high.getD 0, low := k.low.getD 0,
    close := k.close.getD 0, vol := vol_value, volume := vol_value,
    amount := k.amount.getD 0, pct_chg := k.pct_chg.getD 0,
    source := source }

/-- One comma-separated eastmoney kline line after the `len(parts) >= 7`
guard of `get_kline_eastmoney`, with the numeric columns
`float(...)`-parsed: `dt` is the `parts[0]` date/datetime text and
`pct_chg` is `parts[8]` when the line has more than eight columns. -/
structure EmLine where
  dt : String
  open_ : ℚ
  close : ℚ
  high : ℚ
  low : ℚ
  volume : ℚ
  amount : ℚ
  pct_chg : Option ℚ
deriving DecidableEq, Repr

/-- The `raw_kline` dict built inside `get_kline_eastmoney`:
`parts[0].replace("-", "")` for the date, `0` for a missing `pct_chg`. -/
def em_raw_kline (l : EmLine) : RawKline :=
  { date := some (stripDashes l.dt), open_ := some l.open_,
    close := some l.close, high := some l.high, low := some l.low,
    volume := some l.volume, amount := some l.amount,
    pct_chg := some (l.pct_chg.getD 0) }

/-- The start/end date filter of `get_kline_eastmoney`: a line is kept
unless `start_date and date < start_date` or `end_date and date > end_date`
(an unset/empty bound is falsy and filters nothing). -/
def em_keep (start_date end_date : Option String) (d : String) : Bool :=
  (match start_date with
    | some sd => !(decide (d < sd))
    | none => true) &&
  (match end_date with
    | some ed => !(decide (ed < d))
    | none => true)

/-- The parse-filter-normalize loop of `get_kline_eastmoney` over the
response's kline lines. -/
def get_kline_eastmoney_bars (lines : List EmLine)
    (start_date end_date : Option String) : List Bar :=
  ((lines.map em_raw_kline).filter
      (fun r => em_keep start_date end_date (r.date.getD ""))).map
    (fun r => normalize_kline_data r "eastmoney")

/-- Characters surviving `stripDashes` are non-dash characters of the
input. -/
lemma stripDashes_mem {s : String} {c : Char} (h : c ∈ (stripDashes s).data) :
    c ∈ s.data ∧ c ≠ '-' := by
  have := List.mem_filter.mp h
  exact ⟨this.1, by simpa using this.2⟩

/-! ### Claim C4 -/

/-- An eastmoney minute-kline line: `parts[0]` carries a time component. -/
def emMinuteLine : EmLine :=
  { dt := "2024-01-02 10:30", open_ := 10, close := 21/2, high := 11,
    low := 99/10, volume := 1000, amount := 10500, pct_chg := none }

/-- Counterexample to C4: for an intraday bar the eastmoney `getBars` path
only strips `-` from the datetime text, so the `date` field
`"20240102 10:30"` still contains a space and a colon — it is not a string
of digits. -/
theorem eastmoney_minute_bar_date_not_all_digits :
    (get_kline_eastmoney_bars [emMinuteLine] none none).map Bar.date =
      ["20240102 10:30"] ∧
    all_digits "20240102 10:30" = false := by
  constructor
  · rfl
  · rfl

/-- C4 (amended): every bar produced by `normalize_kline_data` has all
numeric fields present, with values missing upstream defaulted to 0, the
`vol`/`volume` and `trade_date`/`date` duplicates equal, and a date equal
to the upstream date value with every `-` removed — hence all digits
whenever the upstream date value consists of digits and dashes only (true
for daily/weekly/monthly dates); an intraday datetime keeps its time
separators (space, colon). -/
theorem normalize_kline_data_shape (k : RawKline) (source : String) :
    let b := normalize_kline_data k source
    b.trade_date = b.date ∧
    b.vol = b.volume ∧
    b.source = source ∧
    b.date = stripDashes (orString k.trade_date (orString k.date "")) ∧
    (∀ c ∈ b.date.data, c ≠ '-') ∧
    ((∀ c ∈ (orString k.trade_date (orString k.date "")).data,
        c.isDigit ∨ c = '-') → all_digits b.date = true) ∧
    (k.open_ = none → b.open_ = 0) ∧
    (k.high = none → b.high = 0) ∧
    (k.low = none → b.low = 0) ∧
    (k.close = none → b.close = 0) ∧
    (k.vol = none → k.volume = none → b.vol = 0) ∧
    (k.amount = none → b.amount = 0) ∧
    (k.pct_chg = none → b.pct_chg = 0) := by
  refine ⟨rfl, rfl, rfl, rfl, ?_, ?_, ?_, ?_, ?_, ?_, ?_, ?_, ?_⟩
  · intro c hc
    exact (stripDashes_mem hc).2
  · intro h
    simp only [all_digits, List.all_eq_true]
    intro c hc
    have hmem := stripDashes_mem hc
    rcases h c hmem.1 with hd | hdash
    · exact hd
    · exact absurd hdash hmem.2
  · intro h; simp [normalize_kline_data, h]
  · intro h; simp [normalize_kline_data, h]
  · intro h; simp [normalize_kline_data, h]
  · intro h; simp [normalize_kline_data, h]
  · intro hv hvol; simp [normalize_kline_data, orNum, hv, hvol]
  · intro h; simp [normalize_kline_data, h]
  · intro h; simp [normalize_kline_data, h]

/-- Witness for C4 (amended): a daily bar with a dashed date and several
missing numeric fields normalizes to an all-digit date and 0 defaults. -/
theorem normalize_kline_data_shape_witness :
    all_digits (normalize_kline_data
      { date := some "2024-01-02", close := some (21/2) } "sina").date =
        true ∧
    (normalize_kline_data
      { date := some "2024-01-02", close := some (21/2) } "sina").open_ =
        0 := by
  have h := normalize_kline_data_shape
    { date := some "2024-01-02", close := some (21/2) } "sina"
  exact ⟨h.2.2.2.2.2.1 (by decide), h.2.2.2.2.2.2.1 rfl⟩

/-! ## Indicator engine (`services/fin_agent_service.py`)

Pure functions over a dense price array; Python floats are modelled as
exact rationals, `None` as `Option.none`. -/

/-- Python `round(x, 2)` modelled as round-to-nearest hundredth. (Python
rounds half to even while `round` here rounds half up; the two differ only
at exact half-cent ties, which none of the verified computations hit.) -/
def round2 (q : ℚ) : ℚ := ((round (q * 100) : ℤ) : ℚ) / 100

/-- `calculate_ma`: simple arithmetic mean over a trailing window,
`None` for the first `period - 1` positions. -/
def calculate_ma (prices : List ℚ) (period : Nat) : List (Option ℚ) :=
  (List.range prices.length).map (fun i =>
    if i < period - 1 then none
    else some (((prices.drop (i + 1 - period)).take period).sum / (period : ℚ)))

/-- The EMA recurrence `ema.append((p - ema[-1]) * mult + ema[-1])`. -/
def emaLoop (mult : ℚ) (prev : ℚ) : List ℚ → List ℚ
  | [] => []
  | p :: rest =>
    let e := (p - prev) * mult + prev
    e :: emaLoop mult e rest

/-- `calculate_ema`: multiplier `2/(period+1)`, seeded with the first
price; empty input yields an empty output. -/
def calculate_ema (prices : List ℚ) (period : Nat) : List ℚ :=
  match prices with
  | [] => []
  | p :: rest => p :: emaLoop (2 / ((period : ℚ) + 1)) p rest

/-- The dict returned by `calculate_macd`. -/
structure MacdResult where
  macd : List ℚ
  signal : List ℚ
  histogram : List ℚ
deriving DecidableEq, Repr

/-- `calculate_macd`: empty arrays when `len(prices) < slow`; otherwise
EMA(fast) − EMA(slow), the EMA(signal) of that line, and their difference.
The series carry no `None` markers: EMA is defined from index 0. -/
def calculate_macd (prices : List ℚ) (fast slow signal : Nat) : MacdResult :=
  if prices.length < slow then ⟨[], [], []⟩
  else
    let ema_fast := calculate_ema prices fast
    let ema_slow := calculate_ema prices slow
    let macd_line := (ema_fast.zip ema_slow).map (fun p => p.1 - p.2)
    let signal_line := calculate_ema macd_line signal
    let histogram := (macd_line.zip signal_line).map (fun p => p.1 - p.2)
    ⟨macd_line, signal_line, histogram⟩

/-- The successive differences `prices[i] - prices[i-1]`. -/
def deltas (prices : List ℚ) : List ℚ :=
  (prices.zip prices.tail).map (fun p => p.2 - p.1)

/-- RSI of a pair of averages: `100` when the average loss is exactly 0,
else `100 - 100/(1 + avg_gain/avg_loss)`. -/
def rsiValue (avg_gain avg_loss : ℚ) : ℚ :=
  if avg_loss = 0 then 100 else 100 - 100 / (1 + avg_gain / avg_loss)

/-- Wilder smoothing loop of `calculate_rsi` over the remaining
(gain, loss) pairs: `avg = (avg*(period-1) + new)/period`. -/
def rsiLoop (period : Nat) (avg_gain avg_loss : ℚ) :
    List (ℚ × ℚ) → List ℚ
  | [] => []
  | (g, l) :: rest =>
    let ag := (avg_gain * ((period : ℚ) - 1) + g) / (period : ℚ)
    let al := (avg_loss * ((period : ℚ) - 1) + l) / (period : ℚ)
    rsiValue ag al :: rsiLoop period ag al rest

/-- `calculate_rsi`: all-`None` output of input length when
`len(prices) < period + 1`; otherwise `period` leading `None`s followed by
the seeded Wilder recursion (first averages are simple means over the
first `period` deltas). -/
def calculate_rsi (prices : List ℚ) (period : Nat) : List (Option ℚ) :=
  if prices.length < period + 1 then List.replicate prices.length none
  else
    let ds := deltas prices
    let gains := ds.map (fun c => if 0 < c then c else 0)
    let losses := ds.map (fun c => if 0 < c then 0 else -c)
    let avg_gain := (gains.take period).sum / (period : ℚ)
    let avg_loss := (losses.take period).sum / (period : ℚ)
    List.replicate period none ++
      (rsiValue avg_gain avg_loss ::
        rsiLoop period avg_gain avg_loss
          ((gains.zip losses).drop period)).map some

/-- The RSV of `calculate_kdj` at index `i`: window extrema over
`high[i-period+1 : i+1]` and `low[i-period+1 : i+1]`, default 50 on a flat
window. (Python `max`/`min` would raise on an empty window, which cannot
happen at the defined indices of equal-length inputs; `getD 0` stands in
for that unreachable case.) -/
def kdjRsv (high low close : List ℚ) (period i : Nat) : ℚ :=
  let highest := ((high.drop (i + 1 - period)).take period).max?.getD 0
  let lowest := ((low.drop (i + 1 - period)).take period).min?.getD 0
  if highest = lowest then 50
  else (close.getD i 0 - lowest) / (highest - lowest) * 100

/-- The (K, D) pair of `calculate_kdj` at a defined index `i`: seeded with
the RSV at `i = period - 1`, otherwise `k = 2/3·k_prev + 1/3·rsv` and
`d = 2/3·d_prev + 1/3·k` where `prev` holds the previously appended
(already rounded) K and D values. -/
def kdjKD (high low close : List ℚ) (period i : Nat)
    (prev : Option (ℚ × ℚ)) : ℚ × ℚ :=
  let rsv := kdjRsv high low close period i
  if i = period - 1 then (rsv, rsv)
  else
    let pk := (prev.getD (0, 0)).1
    let pd := (prev.getD (0, 0)).2
    let k := 2/3 * pk + 1/3 * rsv
    (k, 2/3 * pd + 1/3 * k)

/-- The index loop of `calculate_kdj`: `n` iterations remaining, `i` the
current index, `prev` the last appended (rounded) K and D values. Before
index `period - 1` all three outputs are `None`; afterwards K, D and
`j = 3k − 2d` are appended rounded to two decimals. -/
def kdjLoop (high low close : List ℚ) (period : Nat) :
    Nat → Nat → Option (ℚ × ℚ) →
      List (Option ℚ) × List (Option ℚ) × List (Option ℚ)
  | 0, _, _ => ([], [], [])
  | n + 1, i, prev =>
    if i < period - 1 then
      let t := kdjLoop high low close period n (i + 1) prev
      (none :: t.1, none :: t.2.1, none :: t.2.2)
    else
      let kd := kdjKD high low close period i prev
      let t := kdjLoop high low close period n (i + 1)
        (some (round2 kd.1, round2 kd.2))
      (some (round2 kd.1) :: t.1, some (round2 kd.2) :: t.2.1,
        some (round2 (3 * kd.1 - 2 * kd.2)) :: t.2.2)

/-- The dict returned by `calculate_kdj`. -/
structure KdjResult where
  k : List (Option ℚ)
  d : List (Option ℚ)
  j : List (Option ℚ)
deriving DecidableEq, Repr

/-- `calculate_kdj`: empty arrays when `len(close) < period`, otherwise the
index loop over the whole close series. -/
def calculate_kdj (high low close : List ℚ) (period : Nat) : KdjResult :=
  if close.length < period then ⟨[], [], []⟩
  else
    let t := kdjLoop high low close period close.length 0 none
    ⟨t.1, t.2.1, t.2.2⟩

/-- The (upper, middle, lower) triple of `calculate_bollinger_bands` at
index `i`; `sqrtQ` stands for the float square root `variance ** 0.5`. -/
def bollAt (sqrtQ : ℚ → ℚ) (prices : List ℚ) (period : Nat) (std_dev : ℚ)
    (i : Nat) : Option (ℚ × ℚ × ℚ) :=
  if i < period - 1 then none
  else
    let window := (prices.drop (i + 1 - period)).take period
    let ma := window.sum / (period : ℚ)
    let variance := (window.map (fun x => (x - ma) ^ 2)).sum / (period : ℚ)
    let std := sqrtQ variance
    some (round2 (ma + std_dev * std), round2 ma, round2 (ma - std_dev * std))

/-- The dict returned by `calculate_bollinger_bands`. -/
structure BollResult where
  upper : List (Option ℚ)
  middle : List (Option ℚ)
  lower : List (Option ℚ)
deriving DecidableEq, Repr

/-- `calculate_bollinger_bands`: empty arrays when
`len(prices) < period`; otherwise `None` before index `period - 1` and the
rounded `ma ± std_dev·std` / `ma` bands afterwards. -/
def calculate_bollinger_bands (sqrtQ : ℚ → ℚ) (prices : List ℚ)
    (period : Nat) (std_dev : ℚ) : BollResult :=
  if prices.length < period then ⟨[], [], []⟩
  else
    ⟨(List.range prices.length).map
        (fun i => (bollAt sqrtQ prices period std_dev i).map (fun t => t.1)),
      (List.range prices.length).map
        (fun i => (bollAt sqrtQ prices period std_dev i).map (fun t => t.2.1)),
      (List.range prices.length).map
        (fun i => (bollAt sqrtQ prices period std_dev i).map (fun t => t.2.2))⟩

/-- Modelled from the spec for comparison with the code: the arithmetic
mean of a series. -/
def spec_mean (l : List ℚ) : ℚ := l.sum / (l.length : ℚ)

/-- Modelled from the spec for comparison with the code: the population
variance of a series (its square root is the population standard
deviation). -/
def spec_population_variance (l : List ℚ) : ℚ :=
  (l.map (fun x => (x - spec_mean l) ^ 2)).sum / (l.length : ℚ)

/-! ### Structural lemmas for the indicator series -/

lemma emaLoop_length (mult : ℚ) :
    ∀ (prev : ℚ) (l : List ℚ), (emaLoop mult prev l).length = l.length := by
  intro prev l
  induction l generalizing prev with
  | nil => rfl
  | cons p rest ih => simp [emaLoop, ih]

lemma calculate_ema_length (prices : List ℚ) (period : Nat) :
    (calculate_ema prices period).length = prices.length := by
  cases prices with
  | nil => rfl
  | cons p rest => simp [calculate_ema, emaLoop_length]

lemma rsiLoop_length (period : Nat) :
    ∀ (ag al : ℚ) (l : List (ℚ × ℚ)),
      (rsiLoop period ag al l).length = l.length := by
  intro ag al l
  induction l generalizing ag al with
  | nil => rfl
  | cons gl rest ih => simp [rsiLoop, ih]

lemma deltas_length (l : List ℚ) : (deltas l).length = l.length - 1 := by
  simp only [deltas, List.length_map, List.length_zip, List.length_tail]
  omega

/-- One unfolding step of `kdjLoop`: the outputs are conses over the
recursive call at index `i + 1` (for some successor state `p`), with
`None` heads exactly before index `period - 1`. -/
lemma kdjLoop_succ (high low close : List ℚ) (period n i : Nat)
    (prev : Option (ℚ × ℚ)) :
    ∃ (h1 h2 h3 : Option ℚ) (p : Option (ℚ × ℚ)),
      kdjLoop high low close period (n + 1) i prev =
        (h1 :: (kdjLoop high low close period n (i + 1) p).1,
          h2 :: (kdjLoop high low close period n (i + 1) p).2.1,
          h3 :: (kdjLoop high low close period n (i + 1) p).2.2) ∧
      (i < period - 1 → h1 = none ∧ h2 = none ∧ h3 = none) ∧
      (period - 1 ≤ i →
        (∃ q, h1 = some q) ∧ (∃ q, h2 = some q) ∧ (∃ q, h3 = some q)) := by
  by_cases h : i < period - 1
  · exact ⟨none, none, none, prev, by simp [kdjLoop, h],
      fun _ => ⟨rfl, rfl, rfl⟩, fun hge => by omega⟩
  · refine ⟨some (round2 (kdjKD high low close period i prev).1),
      some (round2 (kdjKD high low close period i prev).2),
      some (round2 (3 * (kdjKD high low close period i prev).1 -
        2 * (kdjKD high low close period i prev).2)),
      some (round2 (kdjKD high low close period i prev).1,
        round2 (kdjKD high low close period i prev).2),
      ?_, fun hlt => absurd hlt h,
      fun _ => ⟨⟨round2 (kdjKD high low close period i prev).1, rfl⟩,
        ⟨round2 (kdjKD high low close period i prev).2, rfl⟩,
        ⟨round2 (3 * (kdjKD high low close period i prev).1 -
          2 * (kdjKD high low close period i prev).2), rfl⟩⟩⟩
    simp only [kdjLoop, if_neg h]

lemma kdjLoop_length (high low close : List ℚ) (period : Nat) :
    ∀ (n i : Nat) (prev : Option (ℚ × ℚ)),
      (kdjLoop high low close period n i prev).1.length = n ∧
      (kdjLoop high low close period n i prev).2.1.length = n ∧
      (kdjLoop high low close period n i prev).2.2.length = n := by
  intro n
  induction n with
  | zero => intro i prev; exact ⟨rfl, rfl, rfl⟩
  | succ n ih =>
    intro i prev
    obtain ⟨h1, h2, h3, p, heq, -, -⟩ :=
      kdjLoop_succ high low close period n i prev
    rw [heq]
    simp [(ih (i + 1) p).1, (ih (i + 1) p).2.1, (ih (i + 1) p).2.2]

lemma kdjLoop_getElem (high low close : List ℚ) (period : Nat) :
    ∀ (n i : Nat) (prev : Option (ℚ × ℚ)) (m : Nat), m < n →
      (i + m < period - 1 →
        (kdjLoop high low close period n i prev).1[m]? = some none ∧
        (kdjLoop high low close period n i prev).2.1[m]? = some none ∧
        (kdjLoop high low close period n i prev).2.2[m]? = some none) ∧
      (period - 1 ≤ i + m →
        (∃ q, (kdjLoop high low close period n i prev).1[m]? = some (some q)) ∧
        (∃ q, (kdjLoop high low close period n i prev).2.1[m]? =
          some (some q)) ∧
        (∃ q, (kdjLoop high low close period n i prev).2.2[m]? =
          some (some q))) := by
  intro n
  induction n with
  | zero => intro i prev m hm; omega
  | succ n ih =>
    intro i prev m hm
    obtain ⟨h1, h2, h3, p, heq, hnone, hsome⟩ :=
      kdjLoop_succ high low close period n i prev
    rw [heq]
    cases m with
    | zero =>
      constructor
      · intro hlt
        obtain ⟨e1, e2, e3⟩ := hnone (by omega)
        exact ⟨by simp [e1], by simp [e2], by simp [e3]⟩
      · intro hge
        obtain ⟨⟨q1, e1⟩, ⟨q2, e2⟩, ⟨q3, e3⟩⟩ := hsome (by omega)
        exact ⟨⟨q1, by simp [e1]⟩, ⟨q2, by simp [e2]⟩, ⟨q3, by simp [e3]⟩⟩
    | succ m =>
      have hih := ih (i + 1) p m (by omega)
      constructor
      · intro hlt
        obtain ⟨e1, e2, e3⟩ := hih.1 (by omega)
        exact ⟨by simpa using e1, by simpa using e2, by simpa using e3⟩
      · intro hge
        obtain ⟨⟨q1, e1⟩, ⟨q2, e2⟩, ⟨q3, e3⟩⟩ := hih.2 (by omega)
        exact ⟨⟨q1, by simpa using e1⟩, ⟨q2, by simpa using e2⟩,
          ⟨q3, by simpa using e3⟩⟩

/-- A total list mapped through `some` has a defined entry at every index
below its length. -/
lemma exists_getElem?_map_some {α : Type} (l : List α) (k : Nat)
    (hk : k < l.length) : ∃ q, (l.map some)[k]? = some (some q) := by
  refine ⟨l[k], ?_⟩
  simp [List.getElem?_eq_getElem, hk]

/-! ### Claim C5 -/

/-- Counterexample to C5: on a one-element price series the MACD, KDJ and
Bollinger functions return empty (length-0) arrays, not arrays aligned
with the input. -/
theorem indicator_short_input_not_aligned :
    [(1 : ℚ)].length = 1 ∧
    (calculate_macd [1] 12 26 9).macd.length = 0 ∧
    (calculate_kdj [1] [1] [1] 9).k.length = 0 ∧
    (calculate_bollinger_bands (fun _ => 0) [1] 20 2).middle.length = 0 :=
  ⟨rfl, rfl, rfl, rfl⟩

/-- C5 (amended): `calculate_ma` and `calculate_rsi` always return an array
of the input's length with `None` (not zero) at every position before the
warm-up window (`period - 1` positions for MA, `period` for RSI) and a
defined value at every later position; `calculate_macd`, `calculate_kdj`
and `calculate_bollinger_bands` are aligned index-for-index only when the
input reaches the slow/period window, returning empty arrays for shorter
inputs; KDJ and Bollinger hold `None` before index `period - 1`, while the
MACD series carry no undefined marker at all (EMA is seeded at the first
price, so every position is defined). -/
theorem indicator_series_alignment :
    (∀ (prices : List ℚ) (period : Nat),
      (calculate_ma prices period).length = prices.length ∧
      (∀ i, i < prices.length → i < period - 1 →
        (calculate_ma prices period)[i]? = some none) ∧
      (∀ i, i < prices.length → period - 1 ≤ i →
        ∃ q, (calculate_ma prices period)[i]? = some (some q))) ∧
    (∀ (prices : List ℚ) (period : Nat),
      (calculate_rsi prices period).length = prices.length ∧
      (∀ i, i < prices.length → i < period →
        (calculate_rsi prices period)[i]? = some none) ∧
      (period + 1 ≤ prices.length → ∀ i, period ≤ i → i < prices.length →
        ∃ q, (calculate_rsi prices period)[i]? = some (some q))) ∧
    (∀ (prices : List ℚ) (fast slow signal : Nat),
      (slow ≤ prices.length →
        (calculate_macd prices fast slow signal).macd.length =
          prices.length ∧
        (calculate_macd prices fast slow signal).signal.length =
          prices.length ∧
        (calculate_macd prices fast slow signal).histogram.length =
          prices.length) ∧
      (prices.length < slow →
        calculate_macd prices fast slow signal = ⟨[], [], []⟩)) ∧
    (∀ (high low close : List ℚ) (period : Nat),
      (period ≤ close.length →
        (calculate_kdj high low close period).k.length = close.length ∧
        (calculate_kdj high low close period).d.length = close.length ∧
        (calculate_kdj high low close period).j.length = close.length ∧
        (∀ i, i < close.length → i < period - 1 →
          (calculate_kdj high low close period).k[i]? = some none ∧
          (calculate_kdj high low close period).d[i]? = some none ∧
          (calculate_kdj high low close period).j[i]? = some none) ∧
        (∀ i, i < close.length → period - 1 ≤ i →
          (∃ q, (calculate_kdj high low close period).k[i]? =
            some (some q)) ∧
          (∃ q, (calculate_kdj high low close period).d[i]? =
            some (some q)) ∧
          (∃ q, (calculate_kdj high low close period).j[i]? =
            some (some q)))) ∧
      (close.length < period →
        calculate_kdj high low close period = ⟨[], [], []⟩)) ∧
    (∀ (sq : ℚ → ℚ) (prices : List ℚ) (period : Nat) (std_dev : ℚ),
      (period ≤ prices.length →
        (calculate_bollinger_bands sq prices period std_dev).upper.length =
          prices.length ∧
        (calculate_bollinger_bands sq prices period std_dev).middle.length =
          prices.length ∧
        (calculate_bollinger_bands sq prices period std_dev).lower.length =
          prices.length ∧
        (∀ i, i < prices.length → i < period - 1 →
          (calculate_bollinger_bands sq prices period std_dev).middle[i]? =
            some none) ∧
        (∀ i, i < prices.length → period - 1 ≤ i →
          ∃ q,
            (calculate_bollinger_bands sq prices period std_dev).middle[i]? =
              some (some q))) ∧
      (prices.length < period →
        calculate_bollinger_bands sq prices period std_dev =
          ⟨[], [], []⟩)) := by
  refine ⟨?_, ?_, ?_, ?_, ?_⟩
  · -- MA
    intro prices period
    refine ⟨by simp [calculate_ma], ?_, ?_⟩
    · intro i hi hlt
      simp [calculate_ma, List.getElem?_map, List.getElem?_range hi, hlt]
    · intro i hi hge
      refine ⟨((prices.drop (i + 1 - period)).take period).sum /
        (period : ℚ), ?_⟩
      simp [calculate_ma, List.getElem?_map, List.getElem?_range hi,
        Nat.not_lt.mpr hge]
  · -- RSI
    intro prices period
    by_cases hshort : prices.length < period + 1
    · refine ⟨by simp [calculate_rsi, hshort], ?_, ?_⟩
      · intro i hi _
        simp [calculate_rsi, hshort, List.getElem?_replicate_of_lt hi]
      · intro hlong
        omega
    · have hlen : period + 1 ≤ prices.length := by omega
      have hds : (deltas prices).length = prices.length - 1 :=
        deltas_length prices
      have hlen2 : (calculate_rsi prices period).length = prices.length := by
        simp only [calculate_rsi, if_neg hshort]
        simp [rsiLoop_length, hds]
        omega
      refine ⟨hlen2, ?_, ?_⟩
      · intro i hi hlt
        simp only [calculate_rsi, if_neg hshort]
        rw [List.getElem?_append_left (by simpa using hlt)]
        exact List.getElem?_replicate_of_lt hlt
      · intro _ i hge hi
        simp only [calculate_rsi, if_neg hshort]
        rw [List.getElem?_append_right (by simpa using hge)]
        simp only [List.length_replicate]
        apply exists_getElem?_map_some
        simp only [List.length_cons, rsiLoop_length, List.length_drop,
          List.length_zip, List.length_map, hds]
        omega
  · -- MACD
    intro prices fast slow signal
    constructor
    · intro hslow
      have hns : ¬ prices.length < slow := by omega
      have hf : (calculate_ema prices fast).length = prices.length :=
        calculate_ema_length prices fast
      have hs : (calculate_ema prices slow).length = prices.length :=
        calculate_ema_length prices slow
      simp only [calculate_macd, if_neg hns]
      refine ⟨?_, ?_, ?_⟩ <;>
        simp [List.length_zip, hf, hs, calculate_ema_length]
    · intro hshort
      simp [calculate_macd, hshort]
  · -- KDJ
    intro high low close period
    constructor
    · intro hper
      have hns : ¬ close.length < period := by omega
      have hl := kdjLoop_length high low close period close.length 0 none
      simp only [calculate_kdj, if_neg hns]
      refine ⟨hl.1, hl.2.1, hl.2.2, ?_, ?_⟩
      · intro i hi hlt
        have := (kdjLoop_getElem high low close period close.length 0 none i
          hi).1 (by omega)
        exact this
      · intro i hi hge
        have := (kdjLoop_getElem high low close period close.length 0 none i
          hi).2 (by omega)
        exact this
    · intro hshort
      simp [calculate_kdj, hshort]
  · -- Bollinger
    intro sq prices period std_dev
    constructor
    · intro hper
      have hns : ¬ prices.length < period := by omega
      simp only [calculate_bollinger_bands, if_neg hns]
      refine ⟨by simp, by simp, by simp, ?_, ?_⟩
      · intro i hi hlt
        simp [List.getElem?_map, List.getElem?_range hi, bollAt, hlt]
      · intro i hi hge
        refine ⟨round2 (((prices.drop (i + 1 - period)).take period).sum /
          (period : ℚ)), ?_⟩
        simp [List.getElem?_map, List.getElem?_range hi, bollAt,
          Nat.not_lt.mpr hge]
    · intro hshort
      simp [calculate_bollinger_bands, hshort]

/-- Witness for C5 (amended): concrete alignment facts on small series. -/
theorem indicator_series_alignment_witness :
    (calculate_ma [1, 2, 3] 2).length = 3 ∧
    (calculate_ma [1, 2, 3] 2)[0]? = some none ∧
    (calculate_kdj [1, 2, 3] [1, 2, 3] [1, 2, 3] 2).k.length = 3 ∧
    (calculate_macd [1] 12 26 9).macd.length = 0 := by
  obtain ⟨hma, hrsi, hmacd, hkdj, hboll⟩ := indicator_series_alignment
  refine ⟨?_, ?_, ?_, ?_⟩
  · simpa using (hma [1, 2, 3] 2).1
  · exact (hma [1, 2, 3] 2).2.1 0 (by norm_num) (by norm_num)
  · simpa using ((hkdj [1, 2, 3] [1, 2, 3] [1, 2, 3] 2).1 (by norm_num)).1
  · have := (hmacd [1] 12 26 9).2 (by norm_num)
    simp [this]

/-! ### Claim C6 -/

/-- The `i`-th delta of a series is the difference of its neighbouring
entries. -/
lemma deltas_getElem? (l : List ℚ) (i : Nat) (hi : i + 1 < l.length) :
    (deltas l)[i]? = some (l.getD (i + 1) 0 - l.getD i 0) := by
  have ha : l[i]? = some l[i] := List.getElem?_eq_getElem (by omega)
  have hb : l[i + 1]? = some l[i + 1] := List.getElem?_eq_getElem hi
  have hz : (l.zip l.tail)[i]? = some (l[i], l[i + 1]) := by
    apply List.getElem?_zip_eq_some.mpr
    refine ⟨ha, ?_⟩
    rw [List.getElem?_tail]
    exact hb
  simp [deltas, hz, ha, hb]

/-- C6: for every price series of length at least 15 whose first 14
consecutive deltas are strictly positive, `calculate_rsi` with period 14
yields RSI = 100 at the first defined position (index 14): every loss over
the warm-up window is 0, hence the average loss is exactly 0. -/
theorem rsi_strictly_increasing_first_value_100
    (prices : List ℚ) (hlen : 15 ≤ prices.length)
    (hinc : ∀ i, i < 14 → prices.getD i 0 < prices.getD (i + 1) 0) :
    (calculate_rsi prices 14)[14]? = some (some 100) := by
  have hshort : ¬ prices.length < 14 + 1 := by omega
  have hzero :
      (((deltas prices).map (fun c => if 0 < c then 0 else -c)).take 14).sum
        = 0 := by
    apply List.sum_eq_zero
    intro x hx
    obtain ⟨j, hj⟩ := List.mem_iff_getElem?.mp hx
    obtain ⟨hjlen, -⟩ := List.getElem?_eq_some_iff.mp hj
    have hjlt : j < 14 := by
      have := List.length_take 14
        ((deltas prices).map (fun c => if 0 < c then 0 else -c))
      omega
    rw [List.getElem?_take_of_lt hjlt, List.getElem?_map,
      deltas_getElem? prices j (by omega)] at hj
    simp at hj
    have hpos : prices[j]?.getD 0 < prices[j + 1]?.getD 0 := by
      simpa using hinc j hjlt
    rw [if_pos hpos] at hj
    exact hj.symm
  simp only [calculate_rsi, if_neg hshort]
  rw [List.getElem?_append_right (by simp)]
  simp only [List.length_replicate, Nat.sub_self, List.map_cons,
    List.getElem?_cons_zero, hzero]
  norm_num [rsiValue]

/-- Witness for C6: the strictly increasing series 1..15 has RSI 100 at
index 14. -/
theorem rsi_strictly_increasing_first_value_100_witness :
    (calculate_rsi [1, 2, 3, 4, 5, 6, 7, 8, 9, 10, 11, 12, 13, 14, 15]
      14)[14]? = some (some 100) :=
  rsi_strictly_increasing_first_value_100
    [1, 2, 3, 4, 5, 6, 7, 8, 9, 10, 11, 12, 13, 14, 15]
    (by decide) (by decide)

/-! ### Claim C7 -/

/-- The price series 1..20 of the Bollinger test case. -/
def prices20 : List ℚ :=
  [1, 2, 3, 4, 5, 6, 7, 8, 9, 10, 11, 12, 13, 14, 15, 16, 17, 18, 19, 20]

/-- `round2` of a value strictly between two consecutive half-cent
boundaries around `n/100`. -/
lemma round2_eq_of_bounds (q : ℚ) (n : ℤ)
    (h1 : (n : ℚ) - 1/2 < q * 100) (h2 : q * 100 < (n : ℚ) + 1/2) :
    round2 q = (n : ℚ) / 100 := by
  have hr : round (q * 100) = n := by
    rw [round_eq]
    apply Int.floor_eq_iff.mpr
    constructor <;> linarith
  rw [round2, hr]

/-- The Bollinger triple of `prices20` at the last index, for any value `s`
the square root returns: mean 21/2, variance 133/4, bands rounded. -/
lemma bollAt_prices20_last (s : ℚ) :
    bollAt (fun _ => s) prices20 20 2 19 =
      some (round2 (21/2 + 2 * s), round2 (21/2), round2 (21/2 - 2 * s)) := by
  have hma : ((prices20.drop (19 + 1 - 20)).take 20).sum / (20 : ℚ) =
      21/2 := by norm_num [prices20]
  have hwin : (prices20.drop (19 + 1 - 20)).take 20 = prices20 := by
    norm_num [prices20]
  have hvar : ((prices20.map (fun x => (x - 21/2) ^ 2)).sum) / (20 : ℚ) =
      133/4 := by norm_num [prices20]
  simp only [bollAt, hwin]
  norm_num [prices20]

/-- The true square root of the window variance 133/4 lies strictly
between 5.7625 and 5.7675 (so any faithful float evaluation of
`variance ** 0.5` does too). -/
lemma sqrt_variance_bounds :
    (57625/10000 : ℝ) < Real.sqrt (133/4) ∧
      Real.sqrt (133/4) < 57675/10000 := by
  constructor
  · rw [Real.lt_sqrt (by norm_num)]
    norm_num
  · rw [Real.sqrt_lt' (by norm_num)]
    norm_num

/-- 23.06 is not four times the true standard deviation of the window. -/
lemma width_ne_four_std : (2306/100 : ℝ) ≠ 4 * Real.sqrt (133/4) := by
  intro h
  have hs : Real.sqrt (133/4) = 2306/400 := by linarith
  have hsq := Real.sq_sqrt (show (0:ℝ) ≤ 133/4 by norm_num)
  rw [hs] at hsq
  norm_num at hsq

/-- The population variance of `prices20`, as the spec defines it. -/
lemma spec_population_variance_prices20 :
    spec_population_variance prices20 = 133/4 := by
  norm_num [spec_population_variance, spec_mean, prices20]

/-- C7 (amended): for the series 1..20 with n = 20, k = 2, and any value
`s` of the float square root of the window variance (the true root and
every faithful float approximation lie strictly between 5.7625 and
5.7675), the middle band at the last index equals the arithmetic mean
21/2 exactly, while `upper − lower` equals 23.06 — the band values are
rounded to two decimals — which differs from `4 × population_std_dev`
(an irrational number ≈ 23.0651) by at most 0.01 but is not equal to it. -/
theorem bollinger_last_point_mean_and_rounded_width
    (s : ℚ) (h1 : 57625/10000 < s) (h2 : s < 57675/10000) :
    spec_mean prices20 = 21/2 ∧
    spec_population_variance prices20 = 133/4 ∧
    (calculate_bollinger_bands (fun _ => s) prices20 20 2).middle[19]? =
      some (some (spec_mean prices20)) ∧
    (∃ u l : ℚ,
      (calculate_bollinger_bands (fun _ => s) prices20 20 2).upper[19]? =
        some (some u) ∧
      (calculate_bollinger_bands (fun _ => s) prices20 20 2).lower[19]? =
        some (some l) ∧
      u - l = 2306/100) ∧
    (2306/100 : ℝ) ≠ 4 * Real.sqrt ((spec_population_variance prices20 : ℚ) : ℝ) ∧
    |(2306/100 : ℝ) - 4 * Real.sqrt ((spec_population_variance prices20 : ℚ) : ℝ)|
      ≤ 1/100 := by
  have hmean : spec_mean prices20 = 21/2 := by
    norm_num [spec_mean, prices20]
  have hvar := spec_population_variance_prices20
  have hcast : ((spec_population_variance prices20 : ℚ) : ℝ) = 133/4 := by
    rw [hvar]; norm_num
  have hlen : ¬ prices20.length < 20 := by norm_num [prices20]
  have h19 : (19 : ℕ) < prices20.length := by norm_num [prices20]
  have hup : round2 (21/2 + 2 * s) = ((2203 : ℤ) : ℚ) / 100 :=
    round2_eq_of_bounds _ 2203 (by push_cast; linarith) (by push_cast; linarith)
  have hlo : round2 (21/2 - 2 * s) = ((-103 : ℤ) : ℚ) / 100 :=
    round2_eq_of_bounds _ (-103) (by push_cast; linarith) (by push_cast; linarith)
  have hmid : round2 (21/2 : ℚ) = 21/2 := by
    have : round2 (21/2 : ℚ) = ((1050 : ℤ) : ℚ) / 100 :=
      round2_eq_of_bounds _ 1050 (by norm_num) (by norm_num)
    rw [this]; norm_num
  refine ⟨hmean, hvar, ?_, ⟨2203/100, -103/100, ?_, ?_, by norm_num⟩, ?_, ?_⟩
  · simp only [calculate_bollinger_bands, if_neg hlen]
    rw [List.getElem?_map, List.getElem?_range h19]
    simp only [Option.map_some', bollAt_prices20_last, hmid, hmean]
  · simp only [calculate_bollinger_bands, if_neg hlen]
    rw [List.getElem?_map, List.getElem?_range h19]
    simp only [Option.map_some', bollAt_prices20_last, hup]
    norm_num
  · simp only [calculate_bollinger_bands, if_neg hlen]
    rw [List.getElem?_map, List.getElem?_range h19]
    simp only [Option.map_some', bollAt_prices20_last, hlo]
    norm_num
  · rw [hcast]
    exact width_ne_four_std
  · rw [hcast]
    obtain ⟨hs1, hs2⟩ := sqrt_variance_bounds
    rw [abs_le]
    constructor <;> linarith

/-- Witness for C7 (amended): the bounds hold at the concrete rational
5.76628 (the float square root of 33.25 to six places). -/
theorem bollinger_last_point_mean_and_rounded_width_witness :
    spec_mean prices20 = 21/2 ∧
    (∃ u l : ℚ,
      (calculate_bollinger_bands (fun _ => 576628/100000) prices20 20
        2).upper[19]? = some (some u) ∧
      (calculate_bollinger_bands (fun _ => 576628/100000) prices20 20
        2).lower[19]? = some (some l) ∧
      u - l = 2306/100) := by
  have h := bollinger_last_point_mean_and_rounded_width (576628/100000)
    (by norm_num) (by norm_num)
  exact ⟨h.1, h.2.2.2.1⟩

/-- Counterexample to C7: with the square root of the window variance
evaluated at 5.76628, the band difference `upper − lower` at the last
index is exactly 23.06, which is not `4 × population_std_dev` (the bands
are rounded to two decimals before subtraction). -/
theorem bollinger_width_not_four_std_dev :
    ((calculate_bollinger_bands (fun _ => 576628/100000) prices20 20
      2).upper[19]? = some (some ((2203 : ℚ)/100))) ∧
    ((calculate_bollinger_bands (fun _ => 576628/100000) prices20 20
      2).lower[19]? = some (some (-(103 : ℚ)/100))) ∧
    (2203/100 - (-103/100) : ℚ) = 2306/100 ∧
    (2306/100 : ℝ) ≠
      4 * Real.sqrt ((spec_population_variance prices20 : ℚ) : ℝ) := by
  have hlen : ¬ prices20.length < 20 := by norm_num [prices20]
  have h19 : (19 : ℕ) < prices20.length := by norm_num [prices20]
  have hup : round2 (21/2 + 2 * (576628/100000 : ℚ)) =
      ((2203 : ℤ) : ℚ) / 100 :=
    round2_eq_of_bounds _ 2203 (by norm_num) (by norm_num)
  have hlo : round2 (21/2 - 2 * (576628/100000 : ℚ)) =
      ((-103 : ℤ) : ℚ) / 100 :=
    round2_eq_of_bounds _ (-103) (by norm_num) (by norm_num)
  refine ⟨?_, ?_, by norm_num, ?_⟩
  · simp only [calculate_bollinger_bands, if_neg hlen]
    rw [List.getElem?_map, List.getElem?_range h19]
    simp only [Option.map_some', bollAt_prices20_last, hup]
    norm_num
  · simp only [calculate_bollinger_bands, if_neg hlen]
    rw [List.getElem?_map, List.getElem?_range h19]
    simp only [Option.map_some', bollAt_prices20_last, hlo]
    norm_num
  · rw [spec_population_variance_prices20]
    have : (((133:ℚ)/4 : ℚ) : ℝ) = 133/4 := by norm_num
    rw [this]
    exact width_ne_four_std

/-! ## In-process fallback cache (`core/cache.py`, `InMemoryCache`)

Python dicts keep insertion order, so `_cache` and `_expiry` are modelled
as association lists with replace-in-place update; expiry instants are
naturals (`datetime.now()` passed explicitly as `now`). -/

/-- Dict assignment `d[k] = v`: an existing key keeps its position, a new
key is appended at the end. -/
def dictSet {β : Type} : List (String × β) → String → β → List (String × β)
  | [], k, v => [(k, v)]
  | (k0, v0) :: rest, k, v =>
    if k0 = k then (k0, v) :: rest else (k0, v0) :: dictSet rest k v

/-- Dict lookup `d.get(k)`. -/
def dictGet {β : Type} (l : List (String × β)) (k : String) : Option β :=
  (l.find? (fun p => decide (p.1 = k))).map (fun p => p.2)

/-- The dict keys are pairwise distinct (an invariant of every Python
dict). -/
def keysNodup {β : Type} (l : List (String × β)) : Prop :=
  (l.map (fun p => p.1)).Nodup

/-- The state of an `InMemoryCache`: `_cache` and `_expiry`. -/
structure MemCache where
  cache : List (String × String)
  expiry : List (String × Nat)
deriving DecidableEq, Repr

/-- The keys of `c._expiry` whose expiry instant has passed at `now`
(`expired_keys` in `_cleanup`). -/
def expiredKeys (c : MemCache) (now : Nat) : List String :=
  (c.expiry.filter (fun p => decide (p.2 < now))).map (fun p => p.1)

/-- `InMemoryCache._cleanup` at time `now`: delete every expired entry,
then — if the store still holds at least `max_size` entries — delete the
oldest `int(max_size * 0.2)` entries by insertion order (`maxSize / 5`:
the float product `max_size * 0.2` truncates to that value for every
realistic capacity). -/
def mem_cleanup (c : MemCache) (maxSize now : Nat) : MemCache :=
  let ek := expiredKeys c now
  let cache1 := c.cache.filter (fun p => decide (p.1 ∉ ek))
  let expiry1 := c.expiry.filter (fun p => decide (p.1 ∉ ek))
  if maxSize ≤ cache1.length then
    let keys := (cache1.take (maxSize / 5)).map (fun p => p.1)
    { cache := cache1.filter (fun p => decide (p.1 ∉ keys)),
      expiry := expiry1.filter (fun p => decide (p.1 ∉ keys)) }
  else
    { cache := cache1, expiry := expiry1 }

/-- `InMemoryCache.set` at time `now`: run `_cleanup` when the store is at
capacity (`len(self._cache) >= self._max_size`), then insert; a truthy
`ex` records the expiry instant `now + ex` (Python `if ex:` treats
`ex = 0` like `None`). -/
def mem_set (c : MemCache) (maxSize now : Nat) (key value : String)
    (ex : Option Nat) : MemCache :=
  let c1 := if maxSize ≤ c.cache.length then mem_cleanup c maxSize now else c
  { cache := dictSet c1.cache key value,
    expiry :=
      match ex with
      | some e => if e = 0 then c1.expiry else dictSet c1.expiry key (now + e)
      | none => c1.expiry }

/-! ### Dict lemmas -/

lemma dictSet_length_le {β : Type} (l : List (String × β)) (k : String)
    (v : β) : (dictSet l k v).length ≤ l.length + 1 := by
  induction l with
  | nil => simp [dictSet]
  | cons p rest ih =>
    by_cases h : p.1 = k
    · simp [dictSet, h]
    · simp only [dictSet, if_neg h, List.length_cons]
      omega

/-- The keys of `dictSet l k v` are the keys of `l` plus `k`. -/
lemma mem_keys_dictSet {β : Type} (l : List (String × β)) (k : String)
    (v : β) (x : String) (hx : x ∈ (dictSet l k v).map (fun p => p.1)) :
    x ∈ l.map (fun p => p.1) ∨ x = k := by
  induction l with
  | nil => simpa [dictSet] using hx
  | cons q rest ih =>
    by_cases hq : q.1 = k
    · simp only [dictSet, if_pos hq, List.map_cons, List.mem_cons] at hx
      rcases hx with hx | hx
      · exact Or.inl (by simp [hx])
      · exact Or.inl (by simp [hx])
    · simp only [dictSet, if_neg hq, List.map_cons, List.mem_cons] at hx
      rcases hx with hx | hx
      · exact Or.inl (by simp [hx])
      · rcases ih hx with h1 | h1
        · exact Or.inl (by simp [h1])
        · exact Or.inr h1

lemma dictSet_keys_nodup {β : Type} (l : List (String × β)) (k : String)
    (v : β) (h : keysNodup l) : keysNodup (dictSet l k v) := by
  induction l with
  | nil => simp [dictSet, keysNodup]
  | cons p rest ih =>
    simp only [keysNodup, List.map_cons, List.nodup_cons] at h
    by_cases hk : p.1 = k
    · simpa [dictSet, hk, keysNodup] using h
    · have hrest := ih h.2
      simp only [dictSet, if_neg hk, keysNodup, List.map_cons,
        List.nodup_cons]
      refine ⟨?_, hrest⟩
      intro hmem
      rcases mem_keys_dictSet rest k v p.1 hmem with hx | hx
      · exact h.1 hx
      · exact hk hx

lemma dictGet_cons {β : Type} (p : String × β) (rest : List (String × β))
    (k2 : String) :
    dictGet (p :: rest) k2 =
      if p.1 = k2 then some p.2 else dictGet rest k2 := by
  by_cases h : p.1 = k2 <;> simp [dictGet, List.find?_cons, h]

lemma dictGet_dictSet {β : Type} (l : List (String × β)) (k k2 : String)
    (v : β) :
    dictGet (dictSet l k v) k2 = if k2 = k then some v else dictGet l k2 := by
  induction l with
  | nil =>
    by_cases h : k2 = k
    · simp [dictSet, dictGet_cons, h, dictGet]
    · have h2 : ¬ k = k2 := fun e => h e.symm
      simp [dictSet, dictGet_cons, h, h2, dictGet]
  | cons p rest ih =>
    by_cases hp : p.1 = k
    · by_cases h2 : k2 = k
      · simp [dictSet, if_pos hp, dictGet_cons, hp, h2]
      · have hpk2 : ¬ p.1 = k2 := by rw [hp]; exact fun e => h2 e.symm
        simp [dictSet, if_pos hp, dictGet_cons, hpk2, h2]
    · by_cases hpk2 : p.1 = k2
      · have h2 : ¬ k2 = k := fun e => hp (hpk2.trans e)
        simp [dictSet, if_neg hp, dictGet_cons, hpk2, h2]
      · simp [dictSet, if_neg hp, dictGet_cons, hpk2, ih]

/-- Filtering out the keys of the first `n` entries of a key-distinct
association list removes exactly those entries. -/
lemma filter_not_mem_take_keys {β : Type} (l : List (String × β)) (n : Nat)
    (h : keysNodup l) :
    l.filter (fun p => decide (p.1 ∉ (l.take n).map (fun q => q.1))) =
      l.drop n := by
  induction l generalizing n with
  | nil => simp
  | cons p rest ih =>
    cases n with
    | zero => simp
    | succ n =>
      simp only [keysNodup, List.map_cons, List.nodup_cons] at h
      simp only [List.take_succ_cons, List.map_cons, List.drop_succ_cons,
        List.filter_cons]
      have hphead : (decide (p.1 ∉ p.1 :: (rest.take n).map
          (fun q => q.1))) = false := by simp
      simp only [hphead, Bool.false_eq_true, if_false]
      have hcongr : rest.filter (fun q => decide (q.1 ∉ p.1 ::
          (rest.take n).map (fun r => r.1))) =
          rest.filter (fun q => decide (q.1 ∉ (rest.take n).map
            (fun r => r.1))) := by
        apply List.filter_congr
        intro q hq
        have hqne : q.1 ≠ p.1 := by
          intro he
          exact h.1 (he ▸ List.mem_map_of_mem (fun r => r.1) hq)
        simp [hqne]
      rw [hcongr, ih n h.2]

/-- `keysNodup` survives filtering. -/
lemma keysNodup_filter {β : Type} (l : List (String × β))
    (f : String × β → Bool) (h : keysNodup l) : keysNodup (l.filter f) := by
  have hsub : List.Sublist ((l.filter f).map (fun p => p.1))
      (l.map (fun p => p.1)) :=
    (List.filter_sublist l).map (fun p => p.1)
  exact h.sublist hsub

/-! ### Claim C8 -/

/-- C8: a write to the in-process fallback store at capacity first purges
every expired entry; if the store still holds `max_size` entries it then
removes the oldest `⌊max_size/5⌋` (20%) of the remaining entries by
insertion order, and only then inserts the new entry — so for the
configured capacities (2000 for the shared instance, default 1000; any
capacity ≥ 5) the store never grows beyond `max_size` entries. -/
theorem inmemory_cache_set_respects_capacity
    (c : MemCache) (maxSize now : Nat) (key value : String) (ex : Option Nat)
    (hnodup : keysNodup c.cache) (hcap : c.cache.length ≤ maxSize)
    (hmax : 5 ≤ maxSize) :
    (mem_set c maxSize now key value ex).cache.length ≤ maxSize ∧
    (c.cache.length < maxSize →
      (mem_set c maxSize now key value ex).cache =
        dictSet c.cache key value) ∧
    (maxSize ≤
        (c.cache.filter (fun p => decide (p.1 ∉ expiredKeys c now))).length →
      (mem_cleanup c maxSize now).cache =
        (c.cache.filter
          (fun p => decide (p.1 ∉ expiredKeys c now))).drop (maxSize / 5)) ∧
    ((c.cache.filter (fun p => decide (p.1 ∉ expiredKeys c now))).length <
        maxSize →
      (mem_cleanup c maxSize now).cache =
        c.cache.filter (fun p => decide (p.1 ∉ expiredKeys c now))) := by
  have hpurged : keysNodup
      (c.cache.filter (fun p => decide (p.1 ∉ expiredKeys c now))) :=
    keysNodup_filter _ _ hnodup
  have hdrop : maxSize ≤
      (c.cache.filter (fun p => decide (p.1 ∉ expiredKeys c now))).length →
      (mem_cleanup c maxSize now).cache =
        (c.cache.filter
          (fun p => decide (p.1 ∉ expiredKeys c now))).drop (maxSize / 5) := by
    intro hge
    simp only [mem_cleanup, if_pos hge]
    exact filter_not_mem_take_keys _ _ hpurged
  have hkeep : (c.cache.filter
      (fun p => decide (p.1 ∉ expiredKeys c now))).length < maxSize →
      (mem_cleanup c maxSize now).cache =
        c.cache.filter (fun p => decide (p.1 ∉ expiredKeys c now)) := by
    intro hlt
    simp only [mem_cleanup, if_neg (by omega : ¬ maxSize ≤
      (c.cache.filter (fun p => decide (p.1 ∉ expiredKeys c now))).length)]
  refine ⟨?_, ?_, hdrop, hkeep⟩
  · by_cases htrig : maxSize ≤ c.cache.length
    · have hfle : (c.cache.filter
          (fun p => decide (p.1 ∉ expiredKeys c now))).length ≤
          c.cache.length := List.length_filter_le _ _
      by_cases hstill : maxSize ≤ (c.cache.filter
          (fun p => decide (p.1 ∉ expiredKeys c now))).length
      · have hclean := hdrop hstill
        have hlen : (mem_cleanup c maxSize now).cache.length =
            (c.cache.filter
              (fun p => decide (p.1 ∉ expiredKeys c now))).length -
              maxSize / 5 := by
          rw [hclean, List.length_drop]
        have hsz : (mem_set c maxSize now key value ex).cache.length ≤
            (mem_cleanup c maxSize now).cache.length + 1 := by
          simp only [mem_set, if_pos htrig]
          exact dictSet_length_le _ _ _
        have hfive : 1 ≤ maxSize / 5 := by omega
        omega
      · have hclean := hkeep (by omega)
        have hsz : (mem_set c maxSize now key value ex).cache.length ≤
            (mem_cleanup c maxSize now).cache.length + 1 := by
          simp only [mem_set, if_pos htrig]
          exact dictSet_length_le _ _ _
        rw [hclean] at hsz
        omega
    · have hsz : (mem_set c maxSize now key value ex).cache.length ≤
          c.cache.length + 1 := by
        simp only [mem_set, if_neg htrig]
        exact dictSet_length_le _ _ _
      omega
  · intro hlt
    simp [mem_set, if_neg (by omega : ¬ maxSize ≤ c.cache.length)]

/-- Witness for C8: a full five-entry store stays within capacity 5 after
a write with no expired entries. -/
theorem inmemory_cache_set_respects_capacity_witness :
    (mem_set
      { cache := [("a", "1"), ("b", "2"), ("c", "3"), ("d", "4"),
          ("e", "5")], expiry := [] }
      5 0 "f" "6" none).cache.length ≤ 5 :=
  (inmemory_cache_set_respects_capacity
    { cache := [("a", "1"), ("b", "2"), ("c", "3"), ("d", "4"), ("e", "5")],
      expiry := [] }
    5 0 "f" "6" none
    (show ([("a", "1"), ("b", "2"), ("c", "3"), ("d", "4"),
      ("e", "5")].map (fun p => p.1)).Nodup by decide)
    (by decide) (by decide)).1

/-! ## Kline storage layer (`services/kline_storage.py`,
`routers/data_sources.py`) -/

/-- The storage cache key of `get_kline_with_storage`:
`f"kline_storage:{ts_code}:{period}:{source}:{start_date or ''}:{end_date or ''}:{limit}"`. -/
def storage_cache_key (ts_code period source : String)
    (start_date end_date : Option String) (limit : Nat) : String :=
  "kline_storage:" ++ ts_code ++ ":" ++ period ++ ":" ++ source ++ ":" ++
    start_date.getD "" ++ ":" ++ end_date.getD "" ++ ":" ++ toString limit

/-- The string-to-enum translation of `get_kline_with_storage`: unknown
strings leave `source_enum = None`, so `get_kline` falls back to its
default. -/
def parse_source_enum (s : String) : Option DataSource :=
  if s = "eastmoney" then some DataSource.eastmoney
  else if s = "sina" then some DataSource.sina
  else if s = "tushare" then some DataSource.tushare
  else none

/-- The dict returned by `get_kline_with_storage`: `from_cache` is present
only on a cache hit (`True`) or after a successful fetch (`False`). -/
structure StorageResult where
  ts_code : String
  source : String
  period : String
  data : List Bar
  from_cache : Option Bool
  error : Option String
deriving DecidableEq, Repr

/-- `KlineStorageService.get_kline_with_storage`: compute the cache key, on
a (truthy, i.e. non-empty) cached value return it with the *requested*
source string and `from_cache = True`; on a miss delegate to
`DataSourceManager.get_kline` (the fetch parameters beyond the provider are
abstracted into `fetch`) and mark `from_cache = False` only when data came
back. The write-through to the cache has no observable effect on the
returned dict and is not modelled. -/
def get_kline_with_storage (cacheGet : String → Option (List Bar))
    (fetch : Fetch) (default : DataSource) (ts_code period : String)
    (start_date end_date : Option String) (sourceStr : String)
    (limit : Nat) : StorageResult :=
  let cache_key :=
    storage_cache_key ts_code period sourceStr start_date end_date limit
  match cacheGet cache_key with
  | some (b :: bs) =>
    { ts_code := ts_code, source := sourceStr, period := period,
      data := b :: bs, from_cache := some true, error := none }
  | _ =>
    let r := get_kline fetch default ts_code period
      (parse_source_enum sourceStr)
    { ts_code := r.ts_code, source := r.source, period := r.period,
      data := r.data,
      from_cache := if r.data.isEmpty then none else some false,
      error := r.error }

/-- The per-symbol loop of `KlineStorageService.batch_get_kline`: each
symbol's `get_kline_with_storage(...).get("data", [])` outcome is
abstracted as `fetch` (`none` models a raised call, which the
`except Exception` arm turns into an empty list for that symbol only). -/
def batch_results (fetch : String → Option (List Bar))
    (codes : List String) : List (String × List Bar) :=
  codes.foldl (fun acc c => dictSet acc c ((fetch c).getD [])) []

/-- The code list parsing of the `/batch/kline` route:
`[c.strip() for c in ts_codes.split(",") if c.strip()]`. -/
def parse_codes (s : String) : List String :=
  ((s.splitOn ",").map (fun c => c.trim)).filter (fun c => decide (c ≠ ""))

/-- The response body of the `/batch/kline` route. -/
structure BatchResponse where
  source : String
  period : String
  data : List (String × List Bar)
deriving DecidableEq, Repr

/-- The `/batch/kline` route of `routers/data_sources.py`: reject an empty
code list and more than 20 codes with HTTP 400 before any fetch, otherwise
run the batch loop. `sourceStr` stands for `source or default`. -/
def batch_get_kline_route (fetch : String → Option (List Bar))
    (ts_codes period sourceStr : String) :
    Except (Nat × String) BatchResponse :=
  let codes := parse_codes ts_codes
  if codes.isEmpty then Except.error (400, "请提供股票代码")
  else if 20 < codes.length then Except.error (400, "最多支持20只股票")
  else Except.ok
    { source := sourceStr, period := period,
      data := batch_results fetch codes }

/-! ### Lemmas for the batch loop -/

lemma batch_results_loop_get (fetch : String → Option (List Bar)) :
    ∀ (codes : List String) (acc : List (String × List Bar)) (k : String),
      dictGet (codes.foldl
          (fun acc c => dictSet acc c ((fetch c).getD [])) acc) k =
        if k ∈ codes then some ((fetch k).getD []) else dictGet acc k := by
  intro codes
  induction codes with
  | nil => simp
  | cons c rest ih =>
    intro acc k
    rw [List.foldl_cons, ih]
    by_cases hk : k ∈ rest
    · simp [hk]
    · rw [dictGet_dictSet]
      by_cases hkc : k = c
      · simp [hk, hkc]
      · simp [hk, hkc]

lemma batch_results_loop_nodup (fetch : String → Option (List Bar)) :
    ∀ (codes : List String) (acc : List (String × List Bar)),
      keysNodup acc →
      keysNodup (codes.foldl
        (fun acc c => dictSet acc c ((fetch c).getD [])) acc) := by
  intro codes
  induction codes with
  | nil => intro acc h; exact h
  | cons c rest ih =>
    intro acc h
    rw [List.foldl_cons]
    exact ih _ (dictSet_keys_nodup _ _ _ h)

/-! ### Claim C9 -/

/-- C9: for a batch of at most 20 symbols the result map holds exactly one
entry per requested symbol — a symbol whose fetch raised maps to `[]`, the
others keep their fetched series — and the loop is a total function (no
exception escapes); a cleaned request of more than 20 symbols is rejected
with HTTP 400 before any fetch is attempted (the route's outcome does not
depend on the fetch function at all). -/
theorem batch_kline_isolates_failures
    (fetch : String → Option (List Bar)) (codes : List String)
    (_hcount : codes.length ≤ 20) :
    keysNodup (batch_results fetch codes) ∧
    (∀ c, c ∈ codes →
      dictGet (batch_results fetch codes) c = some ((fetch c).getD [])) ∧
    (∀ c, c ∉ codes → dictGet (batch_results fetch codes) c = none) ∧
    (∀ (ts_codes period src : String)
        (g : String → Option (List Bar)),
      20 < (parse_codes ts_codes).length →
      batch_get_kline_route fetch ts_codes period src =
        batch_get_kline_route g ts_codes period src ∧
      ∃ msg, batch_get_kline_route fetch ts_codes period src =
        Except.error (400, msg)) := by
  refine ⟨?_, ?_, ?_, ?_⟩
  · exact batch_results_loop_nodup fetch codes [] (by simp [keysNodup])
  · intro c hc
    rw [batch_results, batch_results_loop_get]
    simp [hc]
  · intro c hc
    rw [batch_results, batch_results_loop_get]
    simp [hc, dictGet]
  · intro ts_codes period src g hlong
    have hne : ¬ (parse_codes ts_codes).isEmpty := by
      cases h : parse_codes ts_codes with
      | nil => rw [h] at hlong; simp at hlong
      | cons a l => simp [h]
    constructor
    · simp [batch_get_kline_route, hne, hlong]
    · exact ⟨"最多支持20只股票", by simp [batch_get_kline_route, hne, hlong]⟩

/-- A second concrete bar (a successful eastmoney series) used by
witnesses. -/
def sampleBar2 : Bar :=
  { trade_date := "20240103", date := "20240103", open_ := 20, high := 21,
    low := 19, close := 41/2, vol := 2000, volume := 2000, amount := 41000,
    pct_chg := -1, source := "eastmoney" }

/-- Witness for C9: the spec scenario A/B/C where B's fetch raises — A and
C keep their series, B maps to the empty list. -/
theorem batch_kline_isolates_failures_witness :
    dictGet (batch_results
      (fun c => if c = "B" then none else
        if c = "A" then some [sampleBar2] else some [sampleBar])
      ["A", "B", "C"]) "A" = some [sampleBar2] ∧
    dictGet (batch_results
      (fun c => if c = "B" then none else
        if c = "A" then some [sampleBar2] else some [sampleBar])
      ["A", "B", "C"]) "B" = some [] ∧
    dictGet (batch_results
      (fun c => if c = "B" then none else
        if c = "A" then some [sampleBar2] else some [sampleBar])
      ["A", "B", "C"]) "C" = some [sampleBar] := by
  have h := batch_kline_isolates_failures
    (fun c => if c = "B" then none else
      if c = "A" then some [sampleBar2] else some [sampleBar])
    ["A", "B", "C"] (by decide)
  refine ⟨?_, ?_, ?_⟩
  · simpa using h.2.1 "A" (by decide)
  · simpa using h.2.1 "B" (by decide)
  · simpa using h.2.1 "C" (by decide)

/-! ### Claim C10 -/

/-- C10: on a cache hit `get_kline_with_storage` returns the *requested*
source string in the top-level `source` field — not the provider that
actually produced the cached bars — and the cache key embeds the requested
source; so when the original fetch fell back to another provider, the
top-level `source` disagrees with the per-bar `source` tags of the cached
data. -/
theorem storage_cache_hit_reports_requested_source
    (cacheGet : String → Option (List Bar)) (fetch : Fetch)
    (default : DataSource) (ts_code period sourceStr : String)
    (start_date end_date : Option String) (limit : Nat)
    (b : Bar) (bs : List Bar)
    (hhit : cacheGet (storage_cache_key ts_code period sourceStr start_date
      end_date limit) = some (b :: bs)) :
    get_kline_with_storage cacheGet fetch default ts_code period start_date
        end_date sourceStr limit =
      { ts_code := ts_code, source := sourceStr, period := period,
        data := b :: bs, from_cache := some true, error := none } ∧
    storage_cache_key ts_code period sourceStr start_date end_date limit =
      "kline_storage:" ++ ts_code ++ ":" ++ period ++ ":" ++ sourceStr ++
        ":" ++ start_date.getD "" ++ ":" ++ end_date.getD "" ++ ":" ++
        toString limit := by
  constructor
  · simp [get_kline_with_storage, hhit]
  · rfl

/-- Witness for C10: eastmoney is requested, the cached bars are tagged
"sina" (the original fetch fell back), yet the top-level source field says
"eastmoney". -/
theorem storage_cache_hit_reports_requested_source_witness :
    (get_kline_with_storage (fun _ => some [sampleBar]) (fun _ => none)
      DataSource.eastmoney "000001.SZ" "daily" none none "eastmoney"
      500).source = "eastmoney" ∧
    sampleBar.source = "sina" := by
  have h := storage_cache_hit_reports_requested_source
    (fun _ => some [sampleBar]) (fun _ => none) DataSource.eastmoney
    "000001.SZ" "daily" "eastmoney" none none 500 sampleBar [] rfl
  exact ⟨by rw [h.1], rfl⟩

end AITradingMate
